import Mathlib

/-!
Verification development for the chrome-mcp CDP client.

The definitions below are a shallow embedding of `src/cdp.rs`,
`src/browser.rs` and `src/accessibility.rs`:

* JSON values (`serde_json::Value`) are modelled by `ChromeMcp.Json`
  with integer numbers (no floating point arithmetic occurs in the
  code under verification; numeric leaves are only carried around).
* The `u64` message-id counter is modelled as `Nat` reduced modulo
  `2 ^ 64` (release-mode wrapping semantics of `*counter += 1`).
* The pending-request table `HashMap<u64, Sender>` is modelled as an
  association list from ids to channel identifiers; the map operations
  `insert` and `remove` are modelled key-faithfully.
* Fallible operations return `Except ChromeMcpErr` / `Option`.
-/

namespace ChromeMcp

/-- Model of `serde_json::Value` with integer numeric leaves.
Objects are ordered field lists, arrays are lists. -/
inductive Json where
  | null : Json
  | bool (b : Bool) : Json
  | num (n : Int) : Json
  | str (s : String) : Json
  | arr (elems : List Json) : Json
  | obj (fields : List (String × Json)) : Json

/-- `CdpError` from `src/cdp.rs` lines 25-30: `code: i32`,
`message: String`, `data: Option<Value>`. -/
structure CdpError where
  code : Int
  message : String
  data : Option Json

/-- `CdpMessage` from `src/cdp.rs` lines 16-23: all five fields are
`Option`s; `id: Option<u64>` is a `Nat` (values ≥ 2^64 do not arise
from the Rust type and are rejected by the decoder below). -/
structure CdpMessage where
  id : Option Nat
  method : Option String
  params : Option Json
  result : Option Json
  error : Option CdpError

/-- `ChromeMcpError` from `src/error.rs`.  Variants wrapping foreign
error types (`Io`, `WebSocket`, `Json`, `Url`) are modelled by their
display string. -/
inductive ChromeMcpErr where
  | cdpConnection (msg : String)
  | cdpProtocol (msg : String)
  | elementNotFound (msg : String)
  | navigationTimeout (msg : String)
  | javaScriptError (msg : String)
  | screenshot (msg : String)
  | network (msg : String)
  | accessibility (msg : String)
  | nativeInput (msg : String)
  | mcpProtocol (msg : String)
  | io (msg : String)
  | webSocket (msg : String)
  | json (msg : String)
  | url (msg : String)
  | invalidOperation (msg : String)
  | tabNotFound (msg : String)
  | timeout (ms : Nat)

/-! ## Pending-request table

`pending_requests: Arc<Mutex<HashMap<u64, Sender<CdpMessage>>>>`
(`src/cdp.rs` line 47).  Channels are identified by a `Nat` tag.
The table is an association list whose keys behave like the map's:
`insertPending` replaces any entry with the same key,
`removeGet` removes the entry with the key and returns its value
(mirroring `HashMap::remove`). -/

/-- The pending table: in-flight id ↦ response-channel identifier. -/
abbrev PendingTable := List (Nat × Nat)

/-- `pending_requests.lock().unwrap().insert(id, response_tx)`
(`src/cdp.rs` line 258). -/
def insertPending (i ch : Nat) (t : PendingTable) : PendingTable :=
  (i, ch) :: t.filter (fun p => p.1 != i)

/-- `pending_requests.lock().unwrap().remove(&id)` (`src/cdp.rs`
line 203): remove the entry with key `i` and return its value. -/
def removeGet (i : Nat) : PendingTable → Option Nat × PendingTable
  | [] => (none, [])
  | (k, v) :: rest =>
    if k = i then (some v, rest)
    else
      let r := removeGet i rest
      (r.1, (k, v) :: r.2)

/-! ## The background dispatch loop

`start_message_loop` (`src/cdp.rs` lines 185-238).  For each parsed
inbound text frame the spawned task does:

* `trace!("Received CDP message: ...")` — always;
* if the frame has an id: `pending_requests.remove(&id)`; when a
  sender was present, forward the frame to it (a failed send is
  logged with `warn!`); when no sender was present, nothing at all
  happens;
* if the frame has no id: `debug!("CDP Event: ...")` — the frame is
  only logged.  The `event_sender` channel created at lines 186-187
  is never written to (its receiver `_event_rx` is dropped at once),
  so no frame is ever forwarded to an event sink.
-/

/-- What the dispatch loop did with one inbound frame. -/
inductive DispatchAction where
  | resolved (id ch : Nat) (msg : CdpMessage)
  | unknownId (id : Nat)
  | event

/-- Observable outcome of one iteration of the dispatch loop. -/
structure DispatchOut where
  table : PendingTable
  action : DispatchAction
  /-- Frames sent to the event sink (`event_sender`).  The loop body
  never sends on that channel, so this is always `[]`. -/
  forwardedEvents : List CdpMessage
  /-- Log lines emitted for this frame. -/
  log : List String

/-- One iteration of the dispatch loop of `start_message_loop`
(`src/cdp.rs` lines 197-217) on a successfully parsed frame. -/
def dispatchMessage (t : PendingTable) (msg : CdpMessage) : DispatchOut :=
  let recvLog := ["trace: Received CDP message"]
  match msg.id with
  | some i =>
    match removeGet i t with
    | (some ch, t') =>
      { table := t', action := .resolved i ch msg, forwardedEvents := [],
        log := recvLog }
    | (none, t') =>
      { table := t', action := .unknownId i, forwardedEvents := [],
        log := recvLog }
  | none =>
    { table := t, action := .event, forwardedEvents := [],
      log := recvLog ++ ["debug: CDP Event"] }

/-- Run the dispatch loop over a list of inbound frames, collecting
the deliveries `(id, channel, frame)` made to waiters, in order. -/
def runDispatch (t : PendingTable) :
    List CdpMessage → PendingTable × List (Nat × Nat × CdpMessage)
  | [] => (t, [])
  | m :: ms =>
    let out := dispatchMessage t m
    let rest := runDispatch out.table ms
    match out.action with
    | .resolved i ch msg => (rest.1, (i, ch, msg) :: rest.2)
    | _ => rest

/-! ## `send_command` (`src/cdp.rs` lines 241-276)

The id is taken from the counter (lines 242-247), a fresh channel is
registered in the pending table (lines 257-258), the frame is sent,
and the caller awaits the channel with a 30-second timeout
(lines 264-267).  The timeout branch maps `Elapsed` to
`ChromeMcpError::Timeout { timeout: 30000 }` and performs **no**
operation on the pending table. -/

/-- The observable effect of `send_command`'s timeout branch on the
pending table, starting from table `t`, with assigned id `i` and
fresh channel `ch`: the waiter is inserted (line 258) and the branch
returns `Timeout { timeout: 30000 }` (line 266) without touching the
table again. -/
def sendCommandTimeout (t : PendingTable) (i ch : Nat) :
    PendingTable × ChromeMcpErr :=
  (insertPending i ch t, .timeout 30000)

/-- Interpretation of a resolved reply frame by `send_command`
(`src/cdp.rs` lines 269-275): an error object becomes a
`CdpProtocol` error formatted `"CDP error {code}: {message}"`;
otherwise the result value is returned, `response.result.unwrap_or(Value::Null)`. -/
def resolveResponse (response : CdpMessage) : Except ChromeMcpErr Json :=
  match response.error with
  | some e =>
    .error (.cdpProtocol ("CDP error " ++ toString e.code ++ ": " ++ e.message))
  | none => .ok (response.result.getD Json.null)

/-! ## Message-id counter

`message_id: Arc<Mutex<u64>>` initialised to `1` in `CdpClient::new`
(`src/cdp.rs` line 72).  Each `send_command` call reads the current
value as its id and increments the counter (lines 242-247).  The
counter is a `u64`; `*counter += 1` wraps modulo `2 ^ 64`. -/

/-- Counter value before the `k`-th (0-indexed) `send_command` call;
this value is the id assigned to that call. -/
def counterState : Nat → Nat
  | 0 => 1
  | k + 1 => (counterState k + 1) % 2 ^ 64

/-- The id assigned to the `k`-th (0-indexed) `send_command` call. -/
def assignedId (k : Nat) : Nat := counterState k

/-! ## Domain activation (`src/cdp.rs` lines 133-182)

`connect_to_tab` stores the tab id (line 155), starts the message
loop and then calls `enable_domains`, which issues one
`send_command("{domain}.enable", None)` per domain in order and
propagates the first failure with `?`.  No state is reset on
failure: the tab id stays set, and there is no connection-state
field at all. -/

/-- The fixed domain list of `enable_domains` (`src/cdp.rs`
lines 168-175). -/
def requiredDomains : List String :=
  ["Runtime", "Page", "DOM", "Input", "Network", "Accessibility"]

/-- An oracle giving the outcome of one `send_command` round trip for
a method: `.ok v` means the peer replied and the call returned
result `v`; `.error e` means the call returned error `e`. -/
abbrev CallOracle := String → Except ChromeMcpErr Json

/-- The loop of `enable_domains` (`src/cdp.rs` lines 177-179) over a
remaining domain list: returns the methods actually issued (in
order) and the first failure, if any.  Later domains are not
attempted after a failure (`?` operator). -/
def enableLoop (oracle : CallOracle) :
    List String → List String × Option ChromeMcpErr
  | [] => ([], none)
  | d :: rest =>
    let m := d ++ ".enable"
    match oracle m with
    | .ok _ =>
      let r := enableLoop oracle rest
      (m :: r.1, r.2)
    | .error e => ([m], some e)

/-- `enable_domains` (`src/cdp.rs` lines 167-182). -/
def enableDomains (oracle : CallOracle) : List String × Option ChromeMcpErr :=
  enableLoop oracle requiredDomains

/-- The client-state fields of `CdpClient` relevant to connection
setup (`src/cdp.rs` lines 44-52): after `start_message_loop` the
`websocket` field has been taken (`take()`, line 189), so only
`tab_id` governs whether later commands can reach the tab. -/
structure ClientConn where
  tabId : Option String

/-- `connect_to_tab` (`src/cdp.rs` lines 133-164) after the WebSocket
is open: the tab id is stored (line 155) before `enable_domains` is
called (line 161); an activation failure propagates out with `?` and
resets nothing. -/
def connectToTab (oracle : CallOracle) (st : ClientConn) (tab : String) :
    ClientConn × Option ChromeMcpErr :=
  ({ st with tabId := some tab }, (enableDomains oracle).2)

/-- A `send_command` issued on a client state: `send_message`
(`src/cdp.rs` lines 279-313) only reaches the tab when `tab_id` is
set (line 284); with no tab id nothing is ever sent or received and
the caller's 30-second wait elapses (lines 264-266).  With a tab id,
the oracle gives the round-trip outcome. -/
def sendCommandOn (oracle : CallOracle) (st : ClientConn) (method : String) :
    Except ChromeMcpErr Json :=
  match st.tabId with
  | none => .error (.timeout 30000)
  | some _ => oracle method

/-! ## Element resolution (`src/browser.rs` lines 512-529)

`find_element_any_strategy` tries, in order: CSS selector
(`find_element_by_selector`), accessible text
(`find_element_by_text`), accessible role (`find_element_by_role`).
Each strategy is an async call returning `Result<ElementRef>`; the
chain takes the first `Ok` and falls through on any `Err`, ending
with `ElementNotFound("Element not found: {query}")`. -/

/-- `ElementRef` (`src/browser.rs` lines 52-60).  The `f64` bounds are
modelled as rationals; no arithmetic is performed on them in the
code under verification. -/
structure ElementRef where
  id : String
  selector : Option String
  accessibilityId : Option String
  bounds : Option (Rat × Rat × Rat × Rat)
  text : Option String
  role : Option String

/-- `find_element_any_strategy` (`src/browser.rs` lines 512-529),
parameterised by the outcomes of the three strategy calls. -/
def findElementAnyStrategy (query : String)
    (s1 s2 s3 : Except ChromeMcpErr ElementRef) :
    Except ChromeMcpErr ElementRef :=
  match s1 with
  | .ok e => .ok e
  | .error _ =>
    match s2 with
    | .ok e => .ok e
    | .error _ =>
      match s3 with
      | .ok e => .ok e
      | .error _ => .error (.elementNotFound ("Element not found: " ++ query))

/-! ## Wait engine (`src/browser.rs` lines 313-380)

`wait_for_condition` races a loop against
`timeout(Duration::from_millis(timeout_ms))`.  Each loop iteration
("tick") evaluates the condition once; a true evaluation breaks the
loop; a false one sleeps 100 ms and retries.  A failing evaluation
(`?`) makes the inner block return `Err`, which the outer
`match result { Ok(_) => Ok(()), Err(_) => Timeout }` also treats as
success.  Time is discretised: the deadline admits `maxTicks`
condition evaluations. -/

/-- How a bounded run of the polling loop ends. -/
inductive WaitOutcome where
  | satisfied (tick : Nat)
  | innerError (tick : Nat)
  | timedOut

/-- The polling loop evaluated from tick `k` with `fuel` remaining
ticks before the deadline; `evals n` is the outcome of evaluating the
condition at tick `n`. -/
def waitRun (evals : Nat → Except ChromeMcpErr Bool) :
    Nat → Nat → WaitOutcome
  | 0, _ => .timedOut
  | fuel + 1, k =>
    match evals k with
    | .ok true => .satisfied k
    | .ok false => waitRun evals fuel (k + 1)
    | .error _ => .innerError k

/-- `wait_for_condition` (`src/browser.rs` lines 313-380): the outer
match maps an elapsed deadline to `Timeout { timeout: timeout_ms }`
and everything else — including an inner evaluation error — to
`Ok(())`. -/
def waitForCondition (evals : Nat → Except ChromeMcpErr Bool)
    (maxTicks timeoutMs : Nat) : Except ChromeMcpErr Unit :=
  match waitRun evals maxTicks 0 with
  | .timedOut => .error (.timeout timeoutMs)
  | _ => .ok ()

/-! ## Frame codec

`CdpMessage` and `CdpError` derive serde `Serialize`/`Deserialize`
(`src/cdp.rs` lines 16-30).  Serialization emits all five fields in
declaration order, with `None` as `null`.  Deserialization reads the
named fields of a JSON object; for an `Option` field, a `null` or
missing field yields `None`.  `id` is a `u64` (values outside
`[0, 2^64)` are rejected); `error.code` is an `i32` (values outside
`[-2^31, 2^31)` are rejected).  The text layer (JSON printing and
parsing) belongs to the external `serde_json` crate and is modelled
at the JSON-value level. -/

/-- Serialize an `Option<Value>` field. -/
def encOptJson : Option Json → Json
  | none => .null
  | some v => v

/-- Serialize an `Option<String>` field. -/
def encOptStr : Option String → Json
  | none => .null
  | some s => .str s

/-- Serialize an `Option<u64>` field. -/
def encOptU64 : Option Nat → Json
  | none => .null
  | some n => .num n

/-- Serialize `CdpError` (fields in declaration order). -/
def encodeCdpError (e : CdpError) : Json :=
  .obj [("code", .num e.code), ("message", .str e.message),
        ("data", encOptJson e.data)]

/-- Serialize an `Option<CdpError>` field. -/
def encOptCdpError : Option CdpError → Json
  | none => .null
  | some e => encodeCdpError e

/-- Serialize `CdpMessage` (fields in declaration order). -/
def encodeCdpMessage (m : CdpMessage) : Json :=
  .obj [("id", encOptU64 m.id),
        ("method", encOptStr m.method),
        ("params", encOptJson m.params),
        ("result", encOptJson m.result),
        ("error", encOptCdpError m.error)]

/-- Look up a field of a JSON object; `none` when absent or when the
value is not an object. -/
def getField (j : Json) (key : String) : Option Json :=
  match j with
  | .obj fields => fields.lookup key
  | _ => none

/-- Deserialize an `Option<u64>` field value (missing fields are
passed in as `null`). -/
def decOptU64 : Json → Option (Option Nat)
  | .null => some none
  | .num n => if 0 ≤ n ∧ n < 2 ^ 64 then some (some n.toNat) else none
  | _ => none

/-- Deserialize an `Option<String>` field value. -/
def decOptStr : Json → Option (Option String)
  | .null => some none
  | .str s => some (some s)
  | _ => none

/-- Deserialize an `Option<Value>` field value: `null` yields `None`,
any other value yields `Some` of it. -/
def decOptJson : Json → Option (Option Json)
  | .null => some none
  | v => some (some v)

/-- Deserialize a `CdpError` value. -/
def decodeCdpError (j : Json) : Option CdpError :=
  match getField j "code" with
  | some (.num n) =>
    if -2 ^ 31 ≤ n ∧ n < 2 ^ 31 then
      match getField j "message" with
      | some (.str s) =>
        match decOptJson ((getField j "data").getD .null) with
        | some d => some { code := n, message := s, data := d }
        | none => none
      | _ => none
    else none
  | _ => none

/-- Deserialize an `Option<CdpError>` field value. -/
def decOptCdpError : Json → Option (Option CdpError)
  | .null => some none
  | v => (decodeCdpError v).map some

/-- Deserialize a `CdpMessage` from a JSON value. -/
def decodeCdpMessage (j : Json) : Option CdpMessage :=
  match decOptU64 ((getField j "id").getD .null) with
  | none => none
  | some idv =>
    match decOptStr ((getField j "method").getD .null) with
    | none => none
    | some methodv =>
      match decOptJson ((getField j "params").getD .null) with
      | none => none
      | some paramsv =>
        match decOptJson ((getField j "result").getD .null) with
        | none => none
        | some resultv =>
          match decOptCdpError ((getField j "error").getD .null) with
          | none => none
          | some errorv =>
            some { id := idv, method := methodv, params := paramsv,
                   result := resultv, error := errorv }

/-! ## Accessibility tree (`src/accessibility.rs`)

`AccessibilityNode` (lines 8-21) is a plain recursive tree.
`Bounds` holds `f64` coordinates, modelled as rationals (they are
only carried, never computed with, in the searched code). -/

/-- `Bounds` (`src/accessibility.rs` lines 24-30). -/
structure AXBounds where
  x : Rat
  y : Rat
  width : Rat
  height : Rat

/-- `AccessibilityNode` (`src/accessibility.rs` lines 8-21).
`properties` is the raw `Option<Value>`. -/
inductive AXNode where
  | mk (nodeId : String) (role name description value : Option String)
       (properties : Option Json) (bounds : Option AXBounds)
       (focusable focused clickable : Bool)
       (children : List AXNode)

/-- Field accessor for `name`. -/
def AXNode.name : AXNode → Option String
  | .mk _ _ n _ _ _ _ _ _ _ _ => n

/-- Field accessor for `description`. -/
def AXNode.description : AXNode → Option String
  | .mk _ _ _ d _ _ _ _ _ _ _ => d

/-- Field accessor for `value`. -/
def AXNode.value : AXNode → Option String
  | .mk _ _ _ _ v _ _ _ _ _ _ => v

/-- Field accessor for `clickable`. -/
def AXNode.clickable : AXNode → Bool
  | .mk _ _ _ _ _ _ _ _ _ c _ => c

/-- Field accessor for `children`. -/
def AXNode.children : AXNode → List AXNode
  | .mk _ _ _ _ _ _ _ _ _ _ cs => cs

/-- Model of Rust `str::to_lowercase` (character-wise lowering; the
searched strings are compared only through this function). -/
def lowerStr (s : String) : String := s.map Char.toLower

/-- Model of Rust `str::contains(&str)`: substring test. -/
def containsSub (hay needle : String) : Bool :=
  decide (needle.toList <:+: hay.toList)

/-- The match test of `search_clickable_by_text`
(`src/accessibility.rs` lines 284-296): the lowered `name`,
`description` or `value` contains the lowered query. -/
def matchesText (text : String) (n : AXNode) : Bool :=
  let tl := lowerStr text
  (match n.name with
   | some s => containsSub (lowerStr s) tl
   | none => false)
  || (match n.description with
      | some s => containsSub (lowerStr s) tl
      | none => false)
  || (match n.value with
      | some s => containsSub (lowerStr s) tl
      | none => false)

/-- The combined per-node test of `search_clickable_by_text`
(`src/accessibility.rs` lines 283-301): the node is clickable and its
text matches. -/
def clickMatch (text : String) (n : AXNode) : Bool :=
  n.clickable && matchesText text n

mutual

/-- `search_clickable_by_text` (`src/accessibility.rs` lines 280-308):
push the node itself when it is clickable and matches, then extend
with the results of every child, in order. -/
def searchClickableByText : AXNode → String → List AXNode
  | .mk nodeId role name desc val props bounds foc focd click cs, text =>
    (if click &&
        matchesText text (.mk nodeId role name desc val props bounds foc focd click cs)
     then [.mk nodeId role name desc val props bounds foc focd click cs]
     else [])
    ++ searchClickableList cs text

/-- The `for child in &node.children { results.extend(...) }` loop of
`search_clickable_by_text`. -/
def searchClickableList : List AXNode → String → List AXNode
  | [], _ => []
  | c :: cs, text => searchClickableByText c text ++ searchClickableList cs text

end

mutual

/-- Depth-first pre-order traversal of the tree: a node precedes all
its descendants; children are visited in list order. -/
def preorder : AXNode → List AXNode
  | .mk nodeId role name desc val props bounds foc focd click cs =>
    .mk nodeId role name desc val props bounds foc focd click cs
      :: preorderList cs

/-- Pre-order traversal of a forest. -/
def preorderList : List AXNode → List AXNode
  | [] => []
  | c :: cs => preorder c ++ preorderList cs

end

/-! ## Concrete example frames and oracles used by witnesses and
counterexamples -/

/-- A success-reply frame carrying id `i` and result `v`. -/
def replyFrame (i : Nat) (v : Json) : CdpMessage :=
  { id := some i, method := none, params := none, result := some v, error := none }

/-- An event frame (no id) as delivered by the browser. -/
def eventFrame : CdpMessage :=
  { id := none, method := some "Page.loadEventFired",
    params := some (Json.obj [("timestamp", Json.num 123)]),
    result := none, error := none }

/-- An error-reply frame with the spec's example error object. -/
def boomFrame : CdpMessage :=
  { id := some 7, method := none, params := none, result := none,
    error := some { code := -32000, message := "boom", data := none } }

/-- A request frame with nested structured params, for the codec
witness. -/
def requestFrame : CdpMessage :=
  { id := some 1, method := some "A.x",
    params := some (Json.obj [("n", Json.num 1),
      ("inner", Json.arr [Json.str "s", Json.bool true])]),
    result := none, error := none }

/-- A success-reply frame with a structured result, for the codec
witness. -/
def successFrame : CdpMessage :=
  { id := some 1, method := none, params := none,
    result := some (Json.obj [("ok", Json.bool true)]), error := none }

/-- An oracle under which every command round trip succeeds with an
empty object result. -/
def okOracle : CallOracle := fun _ => .ok (Json.obj [])

/-- An oracle under which exactly the `Page.enable` command (the
second required domain's enable) fails. -/
def failSecondOracle : CallOracle := fun m =>
  if m = "Page.enable" then
    .error (.cdpProtocol "CDP error -32601: method not found")
  else .ok (Json.obj [])

/-- A condition-evaluation trace for the wait-engine witness: the
condition (say, element `#x` visible) is false on ticks 0 and 1 and
becomes true on tick 2. -/
def visibleAtTickTwo : Nat → Except ChromeMcpErr Bool :=
  fun n => .ok (decide (n = 2))

/-- A condition-evaluation trace that is false on every tick. -/
def neverTrueEvals : Nat → Except ChromeMcpErr Bool :=
  fun _ => .ok false

/-- A selector-strategy result for the element-resolution witness. -/
def selRef : ElementRef :=
  { id := "dom-1", selector := some "#submit", accessibilityId := none,
    bounds := none, text := none, role := none }

/-- A role-strategy result for the element-resolution witness. -/
def roleRef : ElementRef :=
  { id := "ax-2", selector := none, accessibilityId := some "2",
    bounds := none, text := some "Submit", role := some "button" }

/-! ## Lemmas about the pending table -/

theorem lookup_cons_self (k v : Nat) (t : PendingTable) :
    List.lookup k ((k, v) :: t) = some v := by
  simp [List.lookup]

theorem lookup_cons_ne {i k : Nat} (h : i ≠ k) (v : Nat) (t : PendingTable) :
    List.lookup i ((k, v) :: t) = List.lookup i t := by
  simp [List.lookup, beq_eq_false_iff_ne.mpr h]

theorem lookup_insertPending_self (i ch : Nat) (t : PendingTable) :
    List.lookup i (insertPending i ch t) = some ch := by
  simp [insertPending, List.lookup]

theorem lookup_filter_self_none (i : Nat) (t : PendingTable) :
    List.lookup i (t.filter (fun p => p.1 != i)) = none := by
  induction t with
  | nil => rfl
  | cons hd tl ih =>
    by_cases h : hd.1 = i
    · simp [List.filter, h, ih]
    · simp only [List.filter]
      have hne : (hd.1 != i) = true := by simpa using h
      rw [hne]
      rcases hd with ⟨k, v⟩
      rw [lookup_cons_ne (Ne.symm h) v]
      exact ih

theorem removeGet_fst_eq_lookup (i : Nat) (t : PendingTable) :
    (removeGet i t).1 = List.lookup i t := by
  induction t with
  | nil => rfl
  | cons hd tl ih =>
    rcases hd with ⟨k, v⟩
    by_cases h : k = i
    · subst h; simp [removeGet, List.lookup]
    · rw [lookup_cons_ne (Ne.symm h) v]
      simpa [removeGet, h] using ih

theorem removeGet_mem {i ch : Nat} {t t' : PendingTable}
    (h : removeGet i t = (some ch, t')) : (i, ch) ∈ t := by
  induction t generalizing t' with
  | nil => simp [removeGet] at h
  | cons hd tl ih =>
    rcases hd with ⟨k, v⟩
    by_cases hk : k = i
    · subst hk
      simp [removeGet] at h
      simp [h.1]
    · simp [removeGet, hk] at h
      exact List.mem_cons_of_mem _ (ih (by rw [Prod.ext_iff]; exact ⟨h.1, rfl⟩))

theorem removeGet_snd_sublist (i : Nat) (t : PendingTable) :
    (removeGet i t).2.Sublist t := by
  induction t with
  | nil => simp [removeGet]
  | cons hd tl ih =>
    rcases hd with ⟨k, v⟩
    by_cases hk : k = i
    · subst hk; simp [removeGet]
    · simpa [removeGet, hk] using List.Sublist.cons₂ (k, v) ih

theorem removeGet_none_snd {i : Nat} {t : PendingTable}
    (h : List.lookup i t = none) : (removeGet i t).2 = t := by
  induction t with
  | nil => rfl
  | cons hd tl ih =>
    rcases hd with ⟨k, v⟩
    by_cases hk : k = i
    · subst hk; rw [lookup_cons_self] at h; exact absurd h (by simp)
    · rw [lookup_cons_ne (Ne.symm hk) v] at h
      simp [removeGet, hk, ih h]

theorem lookup_eq_none_of_not_mem_keys {i : Nat} {t : PendingTable}
    (h : i ∉ t.map Prod.fst) : List.lookup i t = none := by
  induction t with
  | nil => rfl
  | cons hd tl ih =>
    rcases hd with ⟨k, v⟩
    simp only [List.map_cons, List.mem_cons] at h
    push_neg at h
    rw [lookup_cons_ne h.1 v]
    exact ih h.2

theorem removeGet_nodup_lookup {i ch : Nat} {t : PendingTable}
    (hnd : (t.map Prod.fst).Nodup) (h : List.lookup i t = some ch) :
    ∃ t', removeGet i t = (some ch, t') ∧ List.lookup i t' = none := by
  induction t with
  | nil => simp [List.lookup] at h
  | cons hd tl ih =>
    rcases hd with ⟨k, v⟩
    simp only [List.map_cons, List.nodup_cons] at hnd
    by_cases hk : k = i
    · subst hk
      rw [lookup_cons_self] at h
      obtain rfl : v = ch := by simpa using h
      exact ⟨tl, by simp [removeGet],
        lookup_eq_none_of_not_mem_keys hnd.1⟩
    · rw [lookup_cons_ne (Ne.symm hk) v] at h
      obtain ⟨t', ht', hnone⟩ := ih hnd.2 h
      refine ⟨(k, v) :: t', ?_, ?_⟩
      · simp [removeGet, hk, ht']
      · rw [lookup_cons_ne (Ne.symm hk) v]
        exact hnone

/-! ## C1: behaviour of the timeout path of `send_command` -/

/-- C1, counterexample.  The claim says the timed-out call removes its
waiter and "after the timeout the id is no longer registered".  In
the code, the timeout branch of `send_command` (`src/cdp.rs` lines
264-266) only maps the elapsed timer to `Timeout { timeout: 30000 }`;
the waiter inserted at line 258 is still in the pending table: with
an empty initial table, id 1 and channel 0, the id is still
registered after the timeout returns. -/
theorem sendCommandTimeout_keeps_waiter :
    (sendCommandTimeout [] 1 0).2 = ChromeMcpErr.timeout 30000 ∧
    List.lookup 1 (sendCommandTimeout [] 1 0).1 = some 0 := ⟨rfl, rfl⟩

/-- C1, amended.  A call that times out returns the timeout error
(30000 ms) but does **not** remove its waiter: the id remains
registered in the pending table.  The entry is removed only by the
dispatch loop, when (and if) a frame carrying that id later arrives;
that late frame is delivered to the abandoned channel (the timed-out
caller has dropped the receiver, so it observes nothing), it is not
forwarded anywhere else, and afterwards the id is gone.  Thus the
dispatch loop, not the timeout path, is the sole remover of pending
ids. -/
theorem timeout_leaves_waiter_until_late_reply
    (t : PendingTable) (i ch : Nat) (reply : CdpMessage)
    (hid : reply.id = some i) :
    (sendCommandTimeout t i ch).2 = ChromeMcpErr.timeout 30000 ∧
    List.lookup i (sendCommandTimeout t i ch).1 = some ch ∧
    (dispatchMessage (sendCommandTimeout t i ch).1 reply).action =
      DispatchAction.resolved i ch reply ∧
    List.lookup i (dispatchMessage (sendCommandTimeout t i ch).1 reply).table =
      none ∧
    (dispatchMessage (sendCommandTimeout t i ch).1 reply).forwardedEvents = [] := by
  have hins : (sendCommandTimeout t i ch).1 =
      (i, ch) :: t.filter (fun p => p.1 != i) := rfl
  have hrem : removeGet i ((i, ch) :: t.filter (fun p => p.1 != i)) =
      (some ch, t.filter (fun p => p.1 != i)) := by
    simp [removeGet]
  refine ⟨rfl, lookup_insertPending_self i ch t, ?_, ?_, ?_⟩
  · simp [dispatchMessage, hid, hins, hrem]
  · simp [dispatchMessage, hid, hins, hrem, lookup_filter_self_none]
  · simp [dispatchMessage, hid, hins, hrem]

/-- C1 witness: the amended theorem at table `[]`, id 1, channel 0
and a concrete late reply frame. -/
theorem timeout_leaves_waiter_witness :
    (sendCommandTimeout [] 1 0).2 = ChromeMcpErr.timeout 30000 ∧
    List.lookup 1 (sendCommandTimeout [] 1 0).1 = some 0 ∧
    (dispatchMessage (sendCommandTimeout [] 1 0).1
        (replyFrame 1 (Json.str "late"))).action =
      DispatchAction.resolved 1 0 (replyFrame 1 (Json.str "late")) ∧
    List.lookup 1 (dispatchMessage (sendCommandTimeout [] 1 0).1
        (replyFrame 1 (Json.str "late"))).table = none ∧
    (dispatchMessage (sendCommandTimeout [] 1 0).1
        (replyFrame 1 (Json.str "late"))).forwardedEvents = [] :=
  timeout_leaves_waiter_until_late_reply [] 1 0
    (replyFrame 1 (Json.str "late")) rfl

/-! ## C3: the id counter -/

theorem counterState_eq (k : Nat) : counterState k = (1 + k) % 2 ^ 64 := by
  induction k with
  | zero =>
    have : (1 : Nat) % 2 ^ 64 = 1 := Nat.mod_eq_of_lt (by norm_num)
    simp [counterState, this]
  | succ k ih =>
    show (counterState k + 1) % 2 ^ 64 = (1 + (k + 1)) % 2 ^ 64
    rw [ih, Nat.mod_add_mod]
    ring_nf

/-- C3, counterexample.  The claim says the assigned ids are pairwise
distinct and never reused for every sequence of `send_command`
invocations.  The counter is a `u64` (`src/cdp.rs` lines 46, 72,
242-247) and `*counter += 1` wraps modulo `2 ^ 64`, so call number
`2 ^ 64` (0-indexed) is assigned id 1 again — the same id as call
number 0. -/
theorem assignedId_wraps :
    assignedId 0 = 1 ∧ assignedId (2 ^ 64) = 1 ∧ (0 : Nat) ≠ 2 ^ 64 := by
  refine ⟨rfl, ?_, by norm_num⟩
  rw [assignedId, counterState_eq]
  omega

/-- C3, amended.  The counter starts at 1, and the id assigned to the
`k`-th call (0-indexed) is `k + 1` as long as the `u64` counter has
not wrapped (`k ≤ 2 ^ 64 - 2`); within that range ids are pairwise
distinct and strictly increasing in assignment order.  After
`2 ^ 64` calls the counter wraps and ids repeat. -/
theorem assignedId_distinct_increasing :
    assignedId 0 = 1 ∧
    (∀ k, k ≤ 2 ^ 64 - 2 → assignedId k = k + 1) ∧
    (∀ i j, i < j → j ≤ 2 ^ 64 - 2 → assignedId i < assignedId j) := by
  have key : ∀ k, k ≤ 2 ^ 64 - 2 → assignedId k = k + 1 := by
    intro k hk
    rw [assignedId, counterState_eq, Nat.mod_eq_of_lt (by omega)]
    omega
  refine ⟨rfl, key, ?_⟩
  intro i j hij hj
  rw [key i (by omega), key j hj]
  omega

/-- C3 witness: calls 0, 3 and 5 receive ids 1, 4 and 6, strictly
increasing. -/
theorem assignedId_witness :
    assignedId 0 = 1 ∧ assignedId 3 = 4 ∧ assignedId 3 < assignedId 5 :=
  ⟨assignedId_distinct_increasing.1,
   assignedId_distinct_increasing.2.1 3 (by norm_num),
   assignedId_distinct_increasing.2.2 3 5 (by norm_num) (by norm_num)⟩

/-! ## C4: the dispatch loop's per-frame behaviour -/

/-- C4, counterexample.  The claim says an id-less frame is forwarded
to the event sink.  The dispatch loop (`src/cdp.rs` lines 208-212)
only logs such frames (`debug!("CDP Event: ...")`); the
`event_sender` channel is never written to (its receiver is dropped
at creation, lines 186-187), so nothing is forwarded: dispatching a
concrete event frame forwards the empty list. -/
theorem event_not_forwarded :
    (dispatchMessage [] eventFrame).forwardedEvents = [] ∧
    (dispatchMessage [] eventFrame).action = DispatchAction.event :=
  ⟨rfl, rfl⟩

/-- C4, amended.  For every inbound frame processed by the dispatch
loop: if the frame carries an id that is in the pending table, the
matching waiter is removed and resolved with that frame; if the id is
not in the table the frame is ignored without error (only the
generic received-frame trace is logged, no drop-specific
diagnostic); and if the frame carries no id it is logged as an event
and **not** forwarded to the event sink (the sink receives
nothing). -/
theorem dispatch_frame_handling (t : PendingTable) (m : CdpMessage)
    (hnd : (t.map Prod.fst).Nodup) :
    (∀ i ch, m.id = some i → List.lookup i t = some ch →
      (dispatchMessage t m).action = DispatchAction.resolved i ch m ∧
      List.lookup i (dispatchMessage t m).table = none) ∧
    (∀ i, m.id = some i → List.lookup i t = none →
      (dispatchMessage t m).action = DispatchAction.unknownId i ∧
      (dispatchMessage t m).table = t ∧
      (dispatchMessage t m).log = ["trace: Received CDP message"]) ∧
    (m.id = none →
      (dispatchMessage t m).action = DispatchAction.event ∧
      (dispatchMessage t m).table = t ∧
      (dispatchMessage t m).forwardedEvents = [] ∧
      "debug: CDP Event" ∈ (dispatchMessage t m).log) := by
  refine ⟨?_, ?_, ?_⟩
  · intro i ch hid hch
    obtain ⟨t', hrt, hnone⟩ := removeGet_nodup_lookup hnd hch
    constructor
    · simp [dispatchMessage, hid, hrt]
    · simpa [dispatchMessage, hid, hrt] using hnone
  · intro i hid hch
    have h1 : (removeGet i t).1 = none := by
      rw [removeGet_fst_eq_lookup]; exact hch
    have h2 : (removeGet i t).2 = t := removeGet_none_snd hch
    have hr : removeGet i t = (none, t) := Prod.ext_iff.mpr ⟨h1, h2⟩
    refine ⟨?_, ?_, ?_⟩ <;> simp [dispatchMessage, hid, hr]
  · intro hid
    refine ⟨?_, ?_, ?_, ?_⟩ <;> simp [dispatchMessage, hid]

/-- C4 witness: the amended theorem at a one-entry table, applied to
the concrete event frame (no id). -/
theorem dispatch_frame_handling_witness :
    (dispatchMessage [(1, 5)] eventFrame).action = DispatchAction.event ∧
    (dispatchMessage [(1, 5)] eventFrame).table = [(1, 5)] ∧
    (dispatchMessage [(1, 5)] eventFrame).forwardedEvents = [] ∧
    "debug: CDP Event" ∈ (dispatchMessage [(1, 5)] eventFrame).log :=
  (dispatch_frame_handling [(1, 5)] eventFrame (by simp)).2.2 rfl

/-! ## C2: replies are matched to waiters solely by id -/

theorem dispatchMessage_table_sublist (t : PendingTable) (m : CdpMessage) :
    (dispatchMessage t m).table.Sublist t := by
  unfold dispatchMessage
  rcases m.id with _ | i
  · exact List.Sublist.refl t
  · rcases hrg : removeGet i t with ⟨r, t'⟩
    have hsub : t'.Sublist t := by
      have := removeGet_snd_sublist i t
      rwa [hrg] at this
    rcases r with _ | ch <;> simpa [hrg]

theorem lookup_removeGet_ne {i j : Nat} (hne : i ≠ j) (t : PendingTable) :
    List.lookup i (removeGet j t).2 = List.lookup i t := by
  induction t with
  | nil => rfl
  | cons hd tl ih =>
    rcases hd with ⟨k, v⟩
    by_cases hk : k = j
    · subst hk
      have h1 : removeGet k ((k, v) :: tl) = (some v, tl) := by
        simp [removeGet]
      rw [h1, lookup_cons_ne (by omega) v]
    · simp only [removeGet, if_neg hk]
      by_cases hki : k = i
      · subst hki; rw [lookup_cons_self, lookup_cons_self]
      · rw [lookup_cons_ne (fun h => hki h.symm) v,
          lookup_cons_ne (fun h => hki h.symm) v]
        exact ih

theorem dispatchMessage_keys_nodup {t : PendingTable} (m : CdpMessage)
    (hnd : (t.map Prod.fst).Nodup) :
    ((dispatchMessage t m).table.map Prod.fst).Nodup :=
  hnd.sublist ((dispatchMessage_table_sublist t m).map Prod.fst)

theorem runDispatch_sound (t : PendingTable) (msgs : List CdpMessage)
    (i ch : Nat) (m : CdpMessage)
    (hmem : (i, ch, m) ∈ (runDispatch t msgs).2) :
    m.id = some i ∧ (i, ch) ∈ t := by
  induction msgs generalizing t with
  | nil => simp [runDispatch] at hmem
  | cons m0 ms ih =>
    have hsub := dispatchMessage_table_sublist t m0
    cases hact : (dispatchMessage t m0).action with
    | resolved i0 ch0 msg0 =>
      simp only [runDispatch, hact, List.mem_cons] at hmem
      rcases hmem with heq | hmem
      · obtain ⟨rfl, rfl, rfl⟩ : i = i0 ∧ ch = ch0 ∧ m = msg0 := by
          simpa [Prod.ext_iff] using heq
        -- analyse how the dispatch produced this resolved action
        rcases hidm : m0.id with _ | j
        · simp [dispatchMessage, hidm] at hact
        · rcases hrg : removeGet j t with ⟨r, t'⟩
          rcases r with _ | v
          · simp [dispatchMessage, hidm, hrg] at hact
          · simp only [dispatchMessage, hidm, hrg] at hact
            obtain ⟨rfl, rfl, rfl⟩ : j = i ∧ v = ch ∧ m0 = m := by
              cases hact
              exact ⟨rfl, rfl, rfl⟩
            exact ⟨hidm, removeGet_mem hrg⟩
      · have hstep := ih (dispatchMessage t m0).table hmem
        exact ⟨hstep.1, hsub.subset hstep.2⟩
    | unknownId i0 =>
      simp only [runDispatch, hact] at hmem
      have hstep := ih (dispatchMessage t m0).table hmem
      exact ⟨hstep.1, hsub.subset hstep.2⟩
    | event =>
      simp only [runDispatch, hact] at hmem
      have hstep := ih (dispatchMessage t m0).table hmem
      exact ⟨hstep.1, hsub.subset hstep.2⟩

theorem runDispatch_complete (t : PendingTable) (msgs : List CdpMessage)
    (i ch : Nat) (hnd : (t.map Prod.fst).Nodup)
    (hch : List.lookup i t = some ch)
    (hex : ∃ m ∈ msgs, m.id = some i) :
    ∃ m', (i, ch, m') ∈ (runDispatch t msgs).2 ∧ m'.id = some i := by
  induction msgs generalizing t with
  | nil => simp at hex
  | cons m0 ms ih =>
    by_cases h0 : m0.id = some i
    · obtain ⟨t', hrt, _⟩ := removeGet_nodup_lookup hnd hch
      have hact : (dispatchMessage t m0).action = .resolved i ch m0 := by
        simp [dispatchMessage, h0, hrt]
      refine ⟨m0, ?_, h0⟩
      simp only [runDispatch, hact]
      exact List.mem_cons_self _ _
    · have hex' : ∃ m ∈ ms, m.id = some i := by
        rcases hex with ⟨m, hm, hmid⟩
        rcases List.mem_cons.mp hm with rfl | hm'
        · exact absurd hmid h0
        · exact ⟨m, hm', hmid⟩
      have hnd' := dispatchMessage_keys_nodup m0 hnd
      have hch' : List.lookup i (dispatchMessage t m0).table = some ch := by
        rcases hidm : m0.id with _ | j
        · simpa [dispatchMessage, hidm] using hch
        · have hij : i ≠ j := fun h => h0 (by rw [hidm, h])
          rcases hrg : removeGet j t with ⟨r, t'⟩
          have : List.lookup i t' = List.lookup i t := by
            have := lookup_removeGet_ne hij t
            rwa [hrg] at this
          rcases r with _ | v <;>
            simpa [dispatchMessage, hidm, hrg, this] using hch
      obtain ⟨m', hmem', hid'⟩ := ih (dispatchMessage t m0).table hnd' hch' hex'
      refine ⟨m', ?_, hid'⟩
      cases hact : (dispatchMessage t m0).action with
      | resolved i0 ch0 msg0 =>
        simp only [runDispatch, hact]
        exact List.mem_cons_of_mem _ hmem'
      | unknownId i0 =>
        simpa only [runDispatch, hact] using hmem'
      | event =>
        simpa only [runDispatch, hact] using hmem'

/-- C2.  However the inbound reply frames are ordered — any list of
frames, dispatched in arrival order — (a) every delivery made to a
waiter pairs a frame with the channel registered in the initial
pending table under exactly the id the frame carries, and (b) every
pending waiter whose reply is somewhere in the inbound sequence does
receive a frame carrying its own id: dispatch resolves waiters solely
by id matching, never by arrival order. -/
theorem dispatch_resolves_by_id (t : PendingTable) (msgs : List CdpMessage) :
    (∀ i ch m, (i, ch, m) ∈ (runDispatch t msgs).2 →
      m.id = some i ∧ (i, ch) ∈ t) ∧
    ((t.map Prod.fst).Nodup → ∀ i ch, List.lookup i t = some ch →
      (∃ m ∈ msgs, m.id = some i) →
      ∃ m', (i, ch, m') ∈ (runDispatch t msgs).2 ∧ m'.id = some i) :=
  ⟨fun i ch m hmem => runDispatch_sound t msgs i ch m hmem,
   fun hnd i ch hch hex => runDispatch_complete t msgs i ch hnd hch hex⟩

/-- C2 witness: two waiters (id 1 on channel 10, id 2 on channel 20);
the replies arrive out of order (id 2 first).  Each channel receives
exactly the frame carrying its own id, and the theorem applied to the
delivery of channel 10 confirms the id matching. -/
theorem dispatch_resolves_by_id_witness :
    (runDispatch [(1, 10), (2, 20)]
        [replyFrame 2 (Json.str "B"), replyFrame 1 (Json.str "A")]).2 =
      [(2, 20, replyFrame 2 (Json.str "B")),
       (1, 10, replyFrame 1 (Json.str "A"))] ∧
    ((replyFrame 1 (Json.str "A")).id = some 1 ∧
      (1, 10) ∈ ([(1, 10), (2, 20)] : PendingTable)) ∧
    (∃ m', (1, 10, m') ∈ (runDispatch [(1, 10), (2, 20)]
        [replyFrame 2 (Json.str "B"), replyFrame 1 (Json.str "A")]).2 ∧
      m'.id = some 1) :=
  ⟨rfl,
   (dispatch_resolves_by_id [(1, 10), (2, 20)]
       [replyFrame 2 (Json.str "B"), replyFrame 1 (Json.str "A")]).1
     1 10 (replyFrame 1 (Json.str "A"))
     (List.Mem.tail _ (List.Mem.head _)),
   (dispatch_resolves_by_id [(1, 10), (2, 20)]
       [replyFrame 2 (Json.str "B"), replyFrame 1 (Json.str "A")]).2
     (by simp) 1 10 rfl
     ⟨replyFrame 1 (Json.str "A"), List.Mem.tail _ (List.Mem.head _), rfl⟩⟩

/-! ## C5: domain activation -/

/-- C5, counterexample.  The claim says a failed domain enable tears
the connection down into a Closed state and makes every later command
fail with a connection error.  In the code (`src/cdp.rs` lines
133-182) a failed enable only propagates the error out of
`connect_to_tab`: with an oracle failing the second enable
(`Page.enable`), activation fails after issuing exactly
`Runtime.enable` and `Page.enable`, yet the client still holds the
tab id, and a subsequent `DOM.getDocument` round trip under a
healthy oracle **succeeds** instead of failing with a connection
error.  (The code has no connection-state field at all.) -/
theorem activation_failure_no_teardown :
    (connectToTab failSecondOracle ⟨none⟩ "tab-1").2.isSome = true ∧
    (enableDomains failSecondOracle).1 = ["Runtime.enable", "Page.enable"] ∧
    (connectToTab failSecondOracle ⟨none⟩ "tab-1").1.tabId = some "tab-1" ∧
    sendCommandOn okOracle (connectToTab failSecondOracle ⟨none⟩ "tab-1").1
        "DOM.getDocument" = .ok (Json.obj []) := by
  refine ⟨?_, ?_, rfl, rfl⟩ <;> rfl

/-- C5, amended.  Domain activation issues one enable command per
required domain in order and stops at the first failure, whose error
fails `connect_to_tab`; domains after the failing one are not
attempted.  But nothing is torn down: the tab id stored before
activation remains set (the code has no Closed state), and
subsequently issued commands are not blocked. -/
theorem enable_domains_fail_fast (oracle : CallOracle) (st : ClientConn)
    (tab : String) :
    (∀ ds : List String, (∀ d ∈ ds, ∃ v, oracle (d ++ ".enable") = .ok v) →
      enableLoop oracle ds = (ds.map (· ++ ".enable"), none)) ∧
    (∀ ds₁ d ds₂ e, (∀ d' ∈ ds₁, ∃ v, oracle (d' ++ ".enable") = .ok v) →
      oracle (d ++ ".enable") = .error e →
      enableLoop oracle (ds₁ ++ d :: ds₂) =
        (ds₁.map (· ++ ".enable") ++ [d ++ ".enable"], some e)) ∧
    (connectToTab oracle st tab).1.tabId = some tab ∧
    (connectToTab oracle st tab).2 = (enableDomains oracle).2 := by
  have hall : ∀ ds : List String,
      (∀ d ∈ ds, ∃ v, oracle (d ++ ".enable") = .ok v) →
      enableLoop oracle ds = (ds.map (· ++ ".enable"), none) := by
    intro ds
    induction ds with
    | nil => intro _; rfl
    | cons d rest ih =>
      intro h
      obtain ⟨v, hv⟩ := h d (List.mem_cons_self d rest)
      simp [enableLoop, hv, ih fun d' hd' => h d' (List.mem_cons_of_mem d hd')]
  refine ⟨hall, ?_, rfl, rfl⟩
  intro ds₁ d ds₂ e hok hfail
  induction ds₁ with
  | nil => simp [enableLoop, hfail]
  | cons d0 rest ih =>
    obtain ⟨v, hv⟩ := hok d0 (List.mem_cons_self d0 rest)
    simp [enableLoop, hv,
      ih fun d' hd' => hok d' (List.mem_cons_of_mem d0 hd')]

/-- C5 witness: the amended theorem's early-exit clause applied to the
oracle that fails `Page.enable`, with the required domain list split
as `["Runtime"] ++ "Page" :: ["DOM", "Input", "Network",
"Accessibility"]`: exactly the first two enables are issued and the
second one's error is returned. -/
theorem enable_domains_fail_fast_witness :
    enableLoop failSecondOracle
        (["Runtime"] ++ "Page" :: ["DOM", "Input", "Network", "Accessibility"]) =
      (["Runtime.enable", "Page.enable"],
       some (ChromeMcpErr.cdpProtocol "CDP error -32601: method not found")) ∧
    (connectToTab failSecondOracle ⟨none⟩ "tab-1").1.tabId = some "tab-1" :=
  ⟨(enable_domains_fail_fast failSecondOracle ⟨none⟩ "tab-1").2.1
      ["Runtime"] "Page" ["DOM", "Input", "Network", "Accessibility"]
      (ChromeMcpErr.cdpProtocol "CDP error -32601: method not found")
      (by intro d' hd'
          simp only [List.mem_singleton] at hd'
          subst hd'
          exact ⟨Json.obj [], rfl⟩)
      rfl,
   (enable_domains_fail_fast failSecondOracle ⟨none⟩ "tab-1").2.2.1⟩

/-! ## C6: interpretation of a resolved reply -/

/-- C6.  A resolved reply frame yields a protocol error exactly when
the frame carries an error object; the error is a `CdpProtocol` whose
message embeds the peer's code and message
(`"CDP error {code}: {message}"`, `src/cdp.rs` lines 269-273).
Otherwise the frame's result value is returned, an absent result
being replaced by JSON `null` (line 275). -/
theorem resolveResponse_spec (r : CdpMessage) :
    (∀ e, r.error = some e →
      resolveResponse r =
        .error (.cdpProtocol
          ("CDP error " ++ toString e.code ++ ": " ++ e.message))) ∧
    (r.error = none → resolveResponse r = .ok (r.result.getD Json.null)) := by
  constructor
  · intro e he; simp [resolveResponse, he]
  · intro he; simp [resolveResponse, he]

/-- C6 witness: the spec's example — a reply whose error object is
`{code: -32000, message: "boom"}` resolves to the protocol error
`CDP error -32000: boom`; and a reply with a result and no error
resolves to that result. -/
theorem resolveResponse_witness :
    resolveResponse boomFrame =
      .error (.cdpProtocol "CDP error -32000: boom") ∧
    resolveResponse (replyFrame 3 (Json.str "ok")) = .ok (Json.str "ok") :=
  ⟨(resolveResponse_spec boomFrame).1
      { code := -32000, message := "boom", data := none } rfl,
   (resolveResponse_spec (replyFrame 3 (Json.str "ok"))).2 rfl⟩

/-! ## C7: element-resolution strategy order -/

/-- C7.  `find_element_any_strategy` returns the result of the first
strategy that produces a match, in the fixed order selector →
accessible text → accessible role, without consulting later
strategies, and returns the not-found error naming the original
target exactly when all three strategies fail. -/
theorem find_element_strategy_order (q : String)
    (s1 s2 s3 : Except ChromeMcpErr ElementRef) :
    (∀ e, s1 = .ok e → findElementAnyStrategy q s1 s2 s3 = .ok e) ∧
    (∀ e1 e, s1 = .error e1 → s2 = .ok e →
      findElementAnyStrategy q s1 s2 s3 = .ok e) ∧
    (∀ e1 e2 e, s1 = .error e1 → s2 = .error e2 → s3 = .ok e →
      findElementAnyStrategy q s1 s2 s3 = .ok e) ∧
    (findElementAnyStrategy q s1 s2 s3 =
        .error (.elementNotFound ("Element not found: " ++ q)) ↔
      (∃ a, s1 = .error a) ∧ (∃ b, s2 = .error b) ∧ (∃ c, s3 = .error c)) := by
  rcases s1 with e1 | v1 <;> rcases s2 with e2 | v2 <;> rcases s3 with e3 | v3 <;>
    simp [findElementAnyStrategy]

/-- C7 witness: a target that both resolves as a CSS selector and
matches an accessibility role; the selector strategy (strategy 1)
wins and the role-based match is not consulted. -/
theorem find_element_strategy_order_witness :
    findElementAnyStrategy "#submit" (.ok selRef)
        (.error (.elementNotFound "No clickable element found with text: #submit"))
        (.ok roleRef) = .ok selRef :=
  (find_element_strategy_order "#submit" (.ok selRef)
      (.error (.elementNotFound "No clickable element found with text: #submit"))
      (.ok roleRef)).1 selRef rfl

/-! ## C8: the wait engine -/

theorem waitRun_satisfied_at (evals : Nat → Except ChromeMcpErr Bool) :
    ∀ (d fuel start : Nat), d < fuel →
      (∀ j, j < d → evals (start + j) = .ok false) →
      evals (start + d) = .ok true →
      waitRun evals fuel start = .satisfied (start + d) := by
  intro d
  induction d with
  | zero =>
    intro fuel start hfuel _ htrue
    cases fuel with
    | zero => omega
    | succ f =>
      have htrue' : evals start = .ok true := by simpa using htrue
      simpa using (by simp [waitRun, htrue'] :
        waitRun evals (f + 1) start = .satisfied start)
  | succ d ih =>
    intro fuel start hfuel hfalse htrue
    cases fuel with
    | zero => omega
    | succ f =>
      have h0 : evals start = .ok false := by
        simpa using hfalse 0 (Nat.succ_pos d)
      have hrec : waitRun evals f (start + 1) = .satisfied (start + 1 + d) := by
        refine ih f (start + 1) (by omega) ?_ ?_
        · intro j hj
          have := hfalse (j + 1) (by omega)
          simpa [Nat.add_assoc, Nat.add_comm 1 j] using this
        · have : start + 1 + d = start + (d + 1) := by omega
          rw [this]
          exact htrue
      have : start + 1 + d = start + (d + 1) := by omega
      rw [this] at hrec
      simpa [waitRun, h0] using hrec

theorem waitRun_timedOut (evals : Nat → Except ChromeMcpErr Bool) :
    ∀ (fuel start : Nat),
      (∀ j, j < fuel → evals (start + j) = .ok false) →
      waitRun evals fuel start = .timedOut := by
  intro fuel
  induction fuel with
  | zero => intro start _; rfl
  | succ f ih =>
    intro start hfalse
    have h0 : evals start = .ok false := by
      simpa using hfalse 0 (Nat.succ_pos f)
    have hrec : waitRun evals f (start + 1) = .timedOut := by
      refine ih (start + 1) ?_
      intro j hj
      have := hfalse (j + 1) (by omega)
      simpa [Nat.add_assoc, Nat.add_comm 1 j] using this
    simpa [waitRun, h0] using hrec

/-- C8.  The wait engine evaluates the condition once per tick and
returns success at the first tick where the condition is true — the
run ends in `satisfied k` at that very tick, and any evaluation
sequence agreeing up to tick `k` gives the same outcome, so the
remainder of the deadline is never waited out.  If every tick within
the deadline evaluates to false, the engine returns a timeout error
naming the deadline value `timeoutMs`. -/
theorem wait_condition_early_exit
    (evals evals' : Nat → Except ChromeMcpErr Bool)
    (maxTicks timeoutMs k : Nat) :
    (k < maxTicks → (∀ j, j < k → evals j = .ok false) →
      evals k = .ok true →
      waitRun evals maxTicks 0 = .satisfied k ∧
      waitForCondition evals maxTicks timeoutMs = .ok ()) ∧
    (k < maxTicks → (∀ j, j < k → evals j = .ok false) →
      evals k = .ok true → (∀ j, j ≤ k → evals' j = evals j) →
      waitRun evals' maxTicks 0 = .satisfied k) ∧
    ((∀ j, j < maxTicks → evals j = .ok false) →
      waitForCondition evals maxTicks timeoutMs =
        .error (.timeout timeoutMs)) := by
  refine ⟨?_, ?_, ?_⟩
  · intro hk hfalse htrue
    have hrun : waitRun evals maxTicks 0 = .satisfied k := by
      have := waitRun_satisfied_at evals k maxTicks 0 hk
        (by intro j hj; simpa using hfalse j hj) (by simpa using htrue)
      simpa using this
    exact ⟨hrun, by simp [waitForCondition, hrun]⟩
  · intro hk hfalse htrue hagree
    have := waitRun_satisfied_at evals' k maxTicks 0 hk
      (by intro j hj
          rw [Nat.zero_add, hagree j (by omega)]
          exact hfalse j hj)
      (by rw [Nat.zero_add, hagree k le_rfl]; exact htrue)
    simpa using this
  · intro hfalse
    have hrun : waitRun evals maxTicks 0 = .timedOut :=
      waitRun_timedOut evals maxTicks 0
        (by intro j hj; simpa using hfalse j hj)
    simp [waitForCondition, hrun]

/-- C8 witness: a condition that becomes true at tick 2 under a
100-tick deadline (10 s at 100 ms per tick) is satisfied at tick 2 —
not after the full deadline — while a condition that never becomes
true yields the timeout error naming 10000 ms. -/
theorem wait_condition_early_exit_witness :
    (waitRun visibleAtTickTwo 100 0 = .satisfied 2 ∧
      waitForCondition visibleAtTickTwo 100 10000 = .ok ()) ∧
    waitForCondition neverTrueEvals 100 10000 =
      .error (.timeout 10000) :=
  ⟨(wait_condition_early_exit visibleAtTickTwo visibleAtTickTwo 100 10000 2).1
      (by norm_num)
      (by intro j hj
          rcases j with _ | j
          · rfl
          · rcases j with _ | j
            · rfl
            · omega)
      rfl,
   (wait_condition_early_exit neverTrueEvals neverTrueEvals 100 10000 2).2.2
      (fun j hj => rfl)⟩

/-! ## C9: frame codec round trip -/

theorem getField_enc_id (a b c d e : Json) :
    getField (Json.obj [("id", a), ("method", b), ("params", c),
      ("result", d), ("error", e)]) "id" = some a := rfl

theorem getField_enc_method (a b c d e : Json) :
    getField (Json.obj [("id", a), ("method", b), ("params", c),
      ("result", d), ("error", e)]) "method" = some b := rfl

theorem getField_enc_params (a b c d e : Json) :
    getField (Json.obj [("id", a), ("method", b), ("params", c),
      ("result", d), ("error", e)]) "params" = some c := rfl

theorem getField_enc_result (a b c d e : Json) :
    getField (Json.obj [("id", a), ("method", b), ("params", c),
      ("result", d), ("error", e)]) "result" = some d := rfl

theorem getField_enc_error (a b c d e : Json) :
    getField (Json.obj [("id", a), ("method", b), ("params", c),
      ("result", d), ("error", e)]) "error" = some e := rfl

theorem decOptU64_enc (o : Option Nat) (h : ∀ i, o = some i → i < 2 ^ 64) :
    decOptU64 (encOptU64 o) = some o := by
  cases o with
  | none => rfl
  | some n =>
    have hn := h n rfl
    have hcond : (0 : Int) ≤ (n : Int) ∧ (n : Int) < 2 ^ 64 := by
      constructor
      · exact_mod_cast Nat.zero_le n
      · exact_mod_cast hn
    simp only [encOptU64, decOptU64]
    rw [if_pos hcond]
    simp

theorem decOptStr_enc (o : Option String) : decOptStr (encOptStr o) = some o := by
  cases o <;> rfl

theorem decOptJson_enc (o : Option Json) (h : o ≠ some Json.null) :
    decOptJson (encOptJson o) = some o := by
  cases o with
  | none => rfl
  | some v => cases v <;> first | rfl | exact absurd rfl h

theorem decodeCdpError_enc (e : CdpError)
    (hc : -2 ^ 31 ≤ e.code ∧ e.code < 2 ^ 31)
    (hd : e.data ≠ some Json.null) :
    decodeCdpError (encodeCdpError e) = some e := by
  obtain ⟨code, msg, data⟩ := e
  have h1 : getField (encodeCdpError ⟨code, msg, data⟩) "code" =
      some (Json.num code) := rfl
  have h2 : getField (encodeCdpError ⟨code, msg, data⟩) "message" =
      some (Json.str msg) := rfl
  have h3 : getField (encodeCdpError ⟨code, msg, data⟩) "data" =
      some (encOptJson data) := rfl
  have hdec := decOptJson_enc data hd
  simp only [decodeCdpError, h1, h2, h3, Option.getD_some, hdec, if_pos hc]

theorem decOptCdpError_enc (o : Option CdpError)
    (h : ∀ e, o = some e →
      (-2 ^ 31 ≤ e.code ∧ e.code < 2 ^ 31) ∧ e.data ≠ some Json.null) :
    decOptCdpError (encOptCdpError o) = some o := by
  cases o with
  | none => rfl
  | some e =>
    obtain ⟨hc, hd⟩ := h e rfl
    obtain ⟨code, msg, data⟩ := e
    show (decodeCdpError (encodeCdpError ⟨code, msg, data⟩)).map some =
      some (some ⟨code, msg, data⟩)
    rw [decodeCdpError_enc ⟨code, msg, data⟩ hc hd]
    rfl

/-- C9.  Serializing a frame and deserializing the produced JSON
yields a frame equal to the original, for every frame whose
`Option<Value>` fields do not hold the unrepresentable `Some(null)`
(in particular for the request, success-reply, error-reply and event
shapes with structured params/result) and whose numeric fields fit
their Rust integer types.  The text layer (JSON printing/parsing) is
the external `serde_json` crate; the codec is modelled at the JSON
value level. -/
theorem codec_roundtrip (m : CdpMessage)
    (hp : m.params ≠ some Json.null) (hres : m.result ≠ some Json.null)
    (hid : ∀ i, m.id = some i → i < 2 ^ 64)
    (herr : ∀ e, m.error = some e →
      (-2 ^ 31 ≤ e.code ∧ e.code < 2 ^ 31) ∧ e.data ≠ some Json.null) :
    decodeCdpMessage (encodeCdpMessage m) = some m := by
  obtain ⟨mid, mm, mp, mres, merr⟩ := m
  have d1 : decOptU64 (encOptU64 mid) = some mid :=
    decOptU64_enc mid (fun i hi => hid i hi)
  have d2 := decOptStr_enc mm
  have d3 : decOptJson (encOptJson mp) = some mp := decOptJson_enc mp hp
  have d4 : decOptJson (encOptJson mres) = some mres := decOptJson_enc mres hres
  have d5 : decOptCdpError (encOptCdpError merr) = some merr :=
    decOptCdpError_enc merr (fun e he => herr e he)
  simp only [decodeCdpMessage, encodeCdpMessage, getField_enc_id,
    getField_enc_method, getField_enc_params, getField_enc_result,
    getField_enc_error, Option.getD_some, d1, d2, d3, d4, d5]

/-- C9 witness: the round trip applied to concrete frames of the four
shapes — a request with nested structured params, a success reply
with a structured result, an error reply, and an id-less event. -/
theorem codec_roundtrip_witness :
    decodeCdpMessage (encodeCdpMessage requestFrame) = some requestFrame ∧
    decodeCdpMessage (encodeCdpMessage successFrame) = some successFrame ∧
    decodeCdpMessage (encodeCdpMessage boomFrame) = some boomFrame ∧
    decodeCdpMessage (encodeCdpMessage eventFrame) = some eventFrame :=
  ⟨codec_roundtrip requestFrame
      (by simp [requestFrame]) (by simp [requestFrame])
      (by intro i hi; simp [requestFrame] at hi; omega)
      (by intro e he; simp [requestFrame] at he),
   codec_roundtrip successFrame
      (by simp [successFrame]) (by simp [successFrame])
      (by intro i hi; simp [successFrame] at hi; omega)
      (by intro e he; simp [successFrame] at he),
   codec_roundtrip boomFrame (by simp [boomFrame]) (by simp [boomFrame])
      (by intro i hi; simp [boomFrame] at hi; omega)
      (by intro e he
          simp only [boomFrame] at he
          cases he
          exact ⟨⟨by norm_num, by norm_num⟩, by simp⟩),
   codec_roundtrip eventFrame
      (by simp [eventFrame])
      (by simp [eventFrame])
      (by intro i hi; simp [eventFrame] at hi)
      (by intro e he; simp [eventFrame] at he)⟩

/-! ## C10: the clickable-text search -/

/-- Induction principle for the nested inductive `AXNode`: to prove a
property of every node it suffices to prove it for a node assuming it
for all its children. -/
theorem AXNode.inductionOn {P : AXNode → Prop}
    (h : ∀ nodeId role name desc val props bounds foc focd click
      (children : List AXNode), (∀ c ∈ children, P c) →
      P (.mk nodeId role name desc val props bounds foc focd click children)) :
    ∀ n, P n := by
  have key : ∀ k (n : AXNode), sizeOf n ≤ k → P n := by
    intro k
    induction k with
    | zero =>
      intro n hn
      exfalso
      rcases n with ⟨a, b, c, d, e, f, g, h1, h2, h3, cs⟩
      simp at hn
    | succ k ih =>
      intro n hn
      rcases n with ⟨a, b, c, d, e, f, g, h1, h2, h3, cs⟩
      refine h a b c d e f g h1 h2 h3 cs ?_
      intro c' hc'
      refine ih c' ?_
      have hlt := List.sizeOf_lt_of_mem hc'
      have hcs : sizeOf cs < sizeOf (AXNode.mk a b c d e f g h1 h2 h3 cs) := by
        simp
      omega
  exact fun n => key (sizeOf n) n le_rfl

theorem searchClickableList_eq_flat (cs : List AXNode) (text : String) :
    searchClickableList cs text =
      cs.flatMap (fun c => searchClickableByText c text) := by
  induction cs with
  | nil => rfl
  | cons c cs ih => simp [searchClickableList, ih]

theorem preorderList_eq_flat (cs : List AXNode) :
    preorderList cs = cs.flatMap preorder := by
  induction cs with
  | nil => rfl
  | cons c cs ih => simp [preorderList, ih]

/-- C10.  The clickable-text search returns exactly the nodes of the
depth-first pre-order traversal of the tree — so a matching ancestor
always precedes its matching descendants — filtered to those whose
clickable flag is set and whose name, description or value contains
the query as a case-insensitive substring. -/
theorem searchClickable_eq_preorder_filter (n : AXNode) (text : String) :
    searchClickableByText n text = (preorder n).filter (clickMatch text) := by
  induction n using AXNode.inductionOn with
  | h nodeId role name desc val props bounds foc focd click children ih =>
    have hlist : searchClickableList children text =
        (preorderList children).filter (clickMatch text) := by
      induction children with
      | nil => rfl
      | cons c cs ihcs =>
        have hc := ih c (List.mem_cons_self c cs)
        have hcs := ihcs (fun c' hc' => ih c' (List.mem_cons_of_mem c hc'))
        simp only [searchClickableList, preorderList, List.filter_append,
          hc, hcs]
    have hnode : clickMatch text
        (AXNode.mk nodeId role name desc val props bounds foc focd click
          children) =
        (click && matchesText text
          (AXNode.mk nodeId role name desc val props bounds foc focd click
            children)) := rfl
    rcases hcm : click && matchesText text
        (AXNode.mk nodeId role name desc val props bounds foc focd click
          children) with _ | _
    · simp only [searchClickableByText, preorder, hlist, List.filter_cons,
        hnode, hcm, Bool.false_eq_true, if_false, List.nil_append]
    · simp only [searchClickableByText, preorder, hlist, List.filter_cons,
        hnode, hcm, if_true, List.singleton_append]

end ChromeMcp
